import Mathlib

/-!
Shallow embedding of `src/category_encoders/helmert.py` (class `HelmertEncoder`).

The repository ships only `helmert.py`; its collaborators
(`category_encoders.ordinal.OrdinalEncoder`, `category_encoders.utils.get_obj_cols`
and `convert_input`, and `patsy.highlevel.dmatrix`) are not under `src/` and are
modelled from the spec where used, as marked on each definition.

A table is an ordered list of named columns; a cell is a string, a rational
number, or the undefined value (pandas NaN / missing).
-/

namespace HelmertSpec

/-- Cell value of a table: a string, a rational number, or undefined (NaN). -/
inductive Val where
  | str (s : String)
  | num (q : ℚ)
  | undefined
deriving DecidableEq, Repr

/-- One named column of a table. -/
structure Col where
  name : String
  data : List Val
deriving DecidableEq, Repr

/-- A table: an ordered list of named columns, rows aligned by position. -/
abbrev Table := List Col

/-- Data of the column named `c`, or `[]` when no such column exists. -/
def colData (X : Table) (c : String) : List Val :=
  match X.find? (fun col => col.name = c) with
  | some col => col.data
  | none => []

/-- Modelled from the spec: `convert_input` (category_encoders.utils, not under
`src/`) is the input-normalization collaborator returning one canonical table
representation (spec §2, §6); on the canonical representation it is the identity. -/
def convert_input (X : Table) : Table := X

/-- Modelled from the spec: `get_obj_cols` (category_encoders.utils, not under
`src/`) is the column-role detector returning the columns judged string-like /
non-numeric when `cols` is unspecified (spec §2, §6). A column is detected when
it holds at least one string value. -/
def get_obj_cols (X : Table) : List String :=
  (X.filter (fun col => col.data.any (fun v =>
    match v with | .str _ => true | _ => false))).map Col.name

/-- One step of first-occurrence code assignment: a value already holding a code
is skipped, a new value receives the next unused positive integer. -/
def lmStep (m : List (Val × Nat)) (v : Val) : List (Val × Nat) :=
  if m.any (fun p => p.1 = v) then m else m ++ [(v, m.length + 1)]

/-- Modelled from the spec: `OrdinalEncoder.fit` (category_encoders.ordinal, not
under `src/`) assigns each distinct value of the fit column a positive integer
code, starting at 1, in first-occurrence order (spec §3, §4.1). -/
def learnMapping (values : List Val) : List (Val × Nat) :=
  values.foldl lmStep []

/-- Modelled from the spec: `OrdinalEncoder.transform` on one value (spec §4.1):
the trained code when the value is in the mapping, otherwise the reserved
unseen code 0, never assigned to a training category. -/
def encodeVal (m : List (Val × Nat)) (v : Val) : Nat :=
  match m.find? (fun p => p.1 = v) with
  | some p => p.2
  | none => 0

/-- Per-column ordinal mappings learned at fit time, in `cols` order. -/
def ordinalFit (X : Table) (cols : List String) : List (String × List (Val × Nat)) :=
  cols.map (fun c => (c, learnMapping (colData X c)))

/-- Mapping stored for column `c`, or the empty mapping when absent. -/
def mappingFor (oe : List (String × List (Val × Nat))) (c : String) : List (Val × Nat) :=
  match oe.find? (fun p => p.1 = c) with
  | some p => p.2
  | none => []

/-- Modelled from the spec: entry of the Helmert contrast matrix produced
through `patsy.highlevel.dmatrix("C(col, Helmert)")` (patsy is not under
`src/`). Spec §4.2: column 0 is the intercept, all entries 1; for contrast
column `c ≥ 1`, rows `1..c` hold `-1/(c+1)`, row `c+1` holds `c/(c+1)`, and
rows below hold 0. `r` is the 1-indexed category code, `c` the 0-indexed
output position. -/
def helmertEntry (r c : Nat) : ℚ :=
  if c = 0 then 1
  else if r ≤ c then -1 / ((c : ℚ) + 1)
  else if r = c + 1 then (c : ℚ) / ((c : ℚ) + 1)
  else 0

/-- Modelled from the spec: the cell emitted for code `r` at output position `c`
when the trained cardinality is `k`. A trained code `1..k` selects the matrix
row; the reserved unseen code selects the undefined row (spec §4.2, §4.3). -/
def helmertVal (k r c : Nat) : Val :=
  if 1 ≤ r ∧ r ≤ k then .num (helmertEntry r c) else .undefined

/-- The output column name: `'col_' + str(x)` from `helmert_coding`. -/
def renameCol (s : String) : String := "col_" ++ s

/-- The `bin_cols` block emitted for one categorical column `c`: the column is
replaced by the codes of its values (the ordinal-encoding step `transform`
runs just before `helmert_coding`), and `k` new columns named `col_<c>_<d>`
for `d = 0..k-1` are produced, where `k` is the trained cardinality. The
contrast width `k` and the undefined row for unseen codes follow the spec
(§4.2, §4.3), since `patsy.dmatrix` is not under `src/`. -/
def codingBlock (X : Table) (oe : List (String × List (Val × Nat))) (c : String) : Table :=
  (List.range (mappingFor oe c).length).map (fun d =>
    { name := renameCol c ++ "_" ++ toString d
      data := ((colData X c).map (encodeVal (mappingFor oe c))).map
        (fun r => helmertVal (mappingFor oe c).length r d) })

/-- The `pass_thru` columns of `helmert_coding`: the columns not selected as
categorical, in their original order, values unchanged, renamed with the
`col_` prefix applied to every column of the input. -/
def pass_thru_cols (X : Table) (cols : List String) : Table :=
  (X.filter (fun col => !decide (col.name ∈ cols))).map
    (fun col => { name := renameCol col.name, data := col.data })

/-- Embeds the static method `helmert_coding`: all emitted blocks first, in
column-processing order, then the passthrough columns (the
`bin_cols + pass_thru` reindex in the source). -/
def helmert_coding (X : Table) (cols : List String)
    (oe : List (String × List (Val × Nat))) : Table :=
  cols.flatMap (codingBlock X oe) ++ pass_thru_cols X cols

/-- Numeric entries of a column, skipping undefined cells (pandas `skipna`). -/
def numVals (xs : List Val) : List ℚ :=
  xs.filterMap (fun v => match v with | .num q => some q | _ => none)

/-- Whether a cell is a string. -/
def isStrVal (v : Val) : Bool :=
  match v with | .str _ => true | _ => false

/-- Sample variance (denominator `n - 1`) of a list of rationals. -/
def sampleVar (xs : List ℚ) : ℚ :=
  let n : ℚ := xs.length
  let mean : ℚ := xs.sum / n
  ((xs.map (fun x => (x - mean) ^ 2)).sum) / (n - 1)

/-- Variance of a column as `Series.var()` sees it: defined only for columns
without string cells and with at least two numeric observations (the sample
variance of fewer observations is NaN, which fails every `≤` comparison). -/
def colVar (xs : List Val) : Option ℚ :=
  if xs.any isStrVal then none
  else if (numVals xs).length < 2 then none
  else some (sampleVar (numVals xs))

/-- The literal `10e-5` from `fit` (`X_temp[x].var() <= 10e-5`), i.e. `1/10000`. -/
def dropThreshold : ℚ := 1 / 10000

/-- Whether `fit` marks a column invariant: its variance is defined and at most
the source's threshold `10e-5`. -/
def isDropCol (xs : List Val) : Bool :=
  match colVar xs with
  | some v => decide (v ≤ dropThreshold)
  | none => false

/-- Error raised by `transform` (both are `ValueError` in the source; the spec
names them NotFittedError and DimensionMismatchError). -/
inductive TError where
  | notFitted
  | dimMismatch (got expected : Nat)
deriving DecidableEq, Repr

/-- State of a `HelmertEncoder` instance. `_dim`, `cols`, `ordinal_encoder` and
`drop_cols` are populated by `fit`. -/
structure HelmertEncoder where
  return_df : Bool
  drop_invariant : Bool
  drop_cols : List String
  verbose : Nat
  cols : Option (List String)
  ordinal_encoder : Option (List (String × List (Val × Nat)))
  _dim : Option Nat
deriving DecidableEq, Repr

/-- Embeds `HelmertEncoder.__init__`. -/
def HelmertEncoder.init (verbose : Nat) (cols : Option (List String))
    (drop_invariant : Bool) (return_df : Bool) : HelmertEncoder :=
  { return_df := return_df
    drop_invariant := drop_invariant
    drop_cols := []
    verbose := verbose
    cols := cols
    ordinal_encoder := none
    _dim := none }

/-- Embeds `HelmertEncoder.transform`. Raises when the encoder was never
fitted, then when the input column count differs from the recorded `_dim`;
with no categorical columns the converted input is returned unchanged;
otherwise the input is ordinal-encoded, expanded by `helmert_coding`, and,
under `drop_invariant`, the recorded `drop_cols` are dropped. `return_df`
only selects the output container (`X` vs `X.values`), which carries the
same columns either way, so the table itself is returned. -/
def HelmertEncoder.transform (e : HelmertEncoder) (X0 : Table) : Except TError Table :=
  match e._dim with
  | none => .error .notFitted
  | some d =>
    let X := convert_input X0
    if X.length ≠ d then
      .error (.dimMismatch X.length d)
    else
      let cs := e.cols.getD []
      if cs.isEmpty then .ok X
      else
        let X1 := helmert_coding X cs (e.ordinal_encoder.getD [])
        let X2 := if e.drop_invariant then
            X1.filter (fun col => !decide (col.name ∈ e.drop_cols))
          else X1
        .ok X2

/-- Embeds `HelmertEncoder.fit` up to the `drop_invariant` block: records the
input column count in `_dim`, resolves `cols` (auto-detection runs only when
the stored `cols` is still `None`), and fits the ordinal encoder. -/
def HelmertEncoder.fitPre (e0 : HelmertEncoder) (X0 : Table) : HelmertEncoder :=
  let X := convert_input X0
  let cs := match e0.cols with
    | none => get_obj_cols X
    | some l => l
  { e0 with
    _dim := some X.length
    cols := some cs
    ordinal_encoder := some (ordinalFit X cs) }

/-- Embeds `HelmertEncoder.fit`: after `fitPre`, when `drop_invariant` is set,
`drop_cols` is reset, the fit data is transformed unpruned, and every output
column whose variance is at most `10e-5` is recorded in `drop_cols`. The
internal transform cannot fail (`_dim` was just recorded from the same data);
the error arm is kept only to make the match total. -/
def HelmertEncoder.fit (e0 : HelmertEncoder) (X0 : Table) : HelmertEncoder :=
  let e1 := e0.fitPre X0
  if e1.drop_invariant then
    match ({ e1 with drop_cols := [] } : HelmertEncoder).transform X0 with
    | .ok X_temp =>
        { e1 with drop_cols := (X_temp.filter (fun col => isDropCol col.data)).map Col.name }
    | .error _ => { e1 with drop_cols := [] }
  else e1

/-- Invariant of the mapping: all assigned codes lie in `1..length`. -/
def codesBounded (m : List (Val × Nat)) : Prop :=
  ∀ p ∈ m, 1 ≤ p.2 ∧ p.2 ≤ m.length

/-- The fit dataset of the end-to-end example of spec §8.8: one categorical
column `color` with values red, green, red, blue (codes red=1, green=2,
blue=3, cardinality 3). -/
def colorFit : Table := [⟨"color", [.str "red", .str "green", .str "red", .str "blue"]⟩]

/-- The encoder of spec §8.8, fitted on `colorFit` with auto-detected columns,
no pruning. -/
def colorEnc : HelmertEncoder := (HelmertEncoder.init 0 none false true).fit colorFit

/-- A transform input holding each trained category once, in code order. -/
def colorRGB : Table := [⟨"color", [.str "red", .str "green", .str "blue"]⟩]

/-- The transform input of spec §8.8: a subset of the trained categories. -/
def colorRB : Table := [⟨"color", [.str "red", .str "blue"]⟩]

/-- A transform input holding the unseen category `purple` between two
trained categories. -/
def colorUnseen : Table := [⟨"color", [.str "red", .str "purple", .str "blue"]⟩]

/-- A fit dataset whose passthrough column `x` has sample variance
`9/125000 = 7.2e-5`, between the spec threshold `1e-5` and the source
threshold `10e-5 = 1e-4`. -/
def varFit : Table := [⟨"c", [.str "a", .str "b"]⟩, ⟨"x", [.num 0, .num (3/250)]⟩]

/-- An encoder fitted on `varFit` with `drop_invariant` enabled. -/
def varEnc : HelmertEncoder := (HelmertEncoder.init 0 none true true).fit varFit

/-- A one-row fit dataset: the sample variance of a single observation is
undefined (pandas NaN). -/
def oneRowFit : Table := [⟨"c", [.str "a"]⟩]

/-- An encoder fitted on the one-row dataset with `drop_invariant` enabled. -/
def oneRowEnc : HelmertEncoder := (HelmertEncoder.init 0 none true true).fit oneRowFit

/-- An encoder fitted on `colorFit` with `drop_invariant` enabled. -/
def colorDropEnc : HelmertEncoder :=
  (HelmertEncoder.init 0 (some ["color"]) true true).fit colorFit

/-- The pruned transform output of `colorDropEnc` on its own fit data: the
intercept column `col_color_0` is dropped. -/
def colorDropOut : Table :=
  [⟨"col_color_1", [.num (-1/2), .num (1/2), .num (-1/2), .num 0]⟩,
   ⟨"col_color_2", [.num (-1/3), .num (-1/3), .num (-1/3), .num (2/3)]⟩]

/-- A minimal fitted encoder: one categorical column, one row. -/
def tinyFit : Table := [⟨"c", [.str "a"]⟩]

/-- The encoder fitted on `tinyFit` (fit-time column count 1). -/
def tinyEnc : HelmertEncoder := (HelmertEncoder.init 0 (some ["c"]) false true).fit tinyFit

/-- A two-column table, mismatching the fit-time column count of `tinyEnc`. -/
def twoColTable : Table := [⟨"a", []⟩, ⟨"b", []⟩]



/-- A key found in the mapping keeps its result through one assignment step. -/
theorem lmStep_find?_some {m : List (Val × Nat)} {v : Val} {P : Val × Nat → Bool}
    {p : Val × Nat} (h : m.find? P = some p) : (lmStep m v).find? P = some p := by
  unfold lmStep
  split
  · exact h
  · rw [List.find?_append, h]
    rfl

/-- A key found in the mapping keeps its result through the whole fold. -/
theorem foldl_lmStep_find?_some {P : Val × Nat → Bool} :
    ∀ (l : List Val) (m : List (Val × Nat)) (p : Val × Nat),
      m.find? P = some p → (l.foldl lmStep m).find? P = some p := by
  intro l
  induction l with
  | nil => intro m p h; exact h
  | cons a t ih => intro m p h; exact ih _ _ (lmStep_find?_some h)

/-- A key distinct from the scanned value stays absent through one step. -/
theorem lmStep_find?_none {m : List (Val × Nat)} {v w : Val} (hvw : v ≠ w)
    (h : m.find? (fun q => q.1 = w) = none) :
    (lmStep m v).find? (fun q => q.1 = w) = none := by
  unfold lmStep
  split
  · exact h
  · rw [List.find?_append, h]
    simp [List.find?, hvw]

/-- A value that never occurs in the scanned list is absent from the result. -/
theorem foldl_lmStep_find?_none {w : Val} :
    ∀ (l : List Val) (m : List (Val × Nat)), w ∉ l →
      m.find? (fun q => q.1 = w) = none →
      (l.foldl lmStep m).find? (fun q => q.1 = w) = none := by
  intro l
  induction l with
  | nil => intro m _ h; exact h
  | cons a t ih =>
      intro m hw h
      have hne : a ≠ w := fun e => hw (e ▸ List.mem_cons_self a t)
      exact ih _ (fun ht => hw (List.mem_cons_of_mem _ ht)) (lmStep_find?_none hne h)

/-- A value that occurs in the scanned list is present in the result. -/
theorem foldl_lmStep_find?_isSome {w : Val} :
    ∀ (l : List Val) (m : List (Val × Nat)), w ∈ l →
      ((l.foldl lmStep m).find? (fun q => q.1 = w)).isSome := by
  intro l
  induction l with
  | nil => intro m h; cases h
  | cons a t ih =>
      intro m hmem
      rcases List.mem_cons.mp hmem with h | h
      · subst h
        have hsome : ((lmStep m w).find? (fun q => q.1 = w)).isSome := by
          unfold lmStep
          split
          · next hany =>
              rw [List.find?_isSome]
              obtain ⟨x, hx, hpx⟩ := List.any_eq_true.mp hany
              exact ⟨x, hx, hpx⟩
          · rw [List.find?_append]
            cases hm : m.find? (fun q => q.1 = w) with
            | some p => simp
            | none => simp [List.find?]
        obtain ⟨p, hp⟩ := Option.isSome_iff_exists.mp hsome
        rw [show (w :: t).foldl lmStep m = t.foldl lmStep (lmStep m w) from rfl]
        rw [foldl_lmStep_find?_some t (lmStep m w) p hp]
        rfl
      · exact ih _ h

/-- One assignment step preserves the code-range invariant. -/
theorem lmStep_bounded {m : List (Val × Nat)} {v : Val} (h : codesBounded m) :
    codesBounded (lmStep m v) := by
  unfold lmStep
  split
  · exact h
  · intro p hp
    rcases List.mem_append.mp hp with h1 | h2
    · obtain ⟨h3, h4⟩ := h p h1
      refine ⟨h3, ?_⟩
      calc p.2 ≤ m.length := h4
        _ ≤ (m ++ [(v, m.length + 1)]).length := by simp
    · have h2e : p = (v, m.length + 1) := by simpa using h2
      subst h2e
      simp

/-- All codes assigned by `learnMapping` lie in `1..k`. -/
theorem learnMapping_bounded (values : List Val) : codesBounded (learnMapping values) := by
  have key : ∀ (l : List Val) (m : List (Val × Nat)),
      codesBounded m → codesBounded (l.foldl lmStep m) := by
    intro l
    induction l with
    | nil => intro m h; exact h
    | cons a t ih => intro m h; exact ih _ (lmStep_bounded h)
  exact key values [] (fun p hp => absurd hp (List.not_mem_nil p))

/-- A value unseen at fit time is encoded as the reserved code 0. -/
theorem encodeVal_unseen {values : List Val} {v : Val} (h : v ∉ values) :
    encodeVal (learnMapping values) v = 0 := by
  have hnone : (learnMapping values).find? (fun q => q.1 = v) = none :=
    foldl_lmStep_find?_none values [] h rfl
  unfold encodeVal
  rw [hnone]

/-- A value seen at fit time is encoded as a code in `1..k`. -/
theorem encodeVal_seen_bounds {values : List Val} {v : Val} (h : v ∈ values) :
    1 ≤ encodeVal (learnMapping values) v ∧
      encodeVal (learnMapping values) v ≤ (learnMapping values).length := by
  have hsome : ((learnMapping values).find? (fun q => q.1 = v)).isSome :=
    foldl_lmStep_find?_isSome values [] h
  obtain ⟨p, hp⟩ := Option.isSome_iff_exists.mp hsome
  have hb := learnMapping_bounded values p (List.mem_of_find?_eq_some hp)
  unfold encodeVal
  rw [hp]
  exact hb

/-- The ordinal encoder stores `learnMapping` of the fit column for each
selected column. -/
theorem mappingFor_ordinalFit {X : Table} :
    ∀ {cols : List String} {c : String}, c ∈ cols →
      mappingFor (ordinalFit X cols) c = learnMapping (colData X c) := by
  intro cols
  induction cols with
  | nil => intro c h; cases h
  | cons a t ih =>
      intro c h
      by_cases hac : a = c
      · subst hac
        simp [ordinalFit, mappingFor, List.find?]
      · rcases List.mem_cons.mp h with h1 | h1
        · exact absurd h1.symm hac
        · have := ih h1
          simp only [ordinalFit, mappingFor, List.map_cons, List.find?] at this ⊢
          simp only [hac, decide_False]
          exact this




/-- The sample variance of a constant column is 0. -/
theorem sampleVar_replicate {n : ℕ} (q : ℚ) (h : 1 ≤ n) :
    sampleVar (List.replicate n q) = 0 := by
  have hnz : (n : ℚ) ≠ 0 := Nat.cast_ne_zero.mpr (by omega)
  unfold sampleVar
  simp only [List.length_replicate, List.sum_replicate, nsmul_eq_mul]
  rw [mul_div_cancel_left₀ q hnz]
  simp [List.map_replicate, List.sum_replicate]

/-- The numeric entries of a constant numeric column. -/
theorem numVals_replicate (n : ℕ) (q : ℚ) :
    numVals (List.replicate n (Val.num q)) = List.replicate n q := by
  simp [numVals, List.filterMap_replicate]

/-- A constant numeric column holds no string. -/
theorem any_isStrVal_replicate (n : ℕ) (q : ℚ) :
    (List.replicate n (Val.num q)).any isStrVal = false := by
  induction n with
  | zero => rfl
  | succ k ih =>
      rw [List.replicate_succ]
      simp only [List.any_cons, ih, Bool.or_false]
      rfl

/-- The variance of a constant numeric column of at least two rows is 0. -/
theorem colVar_replicate {n : ℕ} (q : ℚ) (h : 2 ≤ n) :
    colVar (List.replicate n (Val.num q)) = some 0 := by
  unfold colVar
  rw [any_isStrVal_replicate, numVals_replicate]
  simp only [Bool.false_eq_true, if_false, List.length_replicate]
  rw [if_neg (by omega)]
  rw [sampleVar_replicate q (by omega)]

/-- A constant numeric column of at least two rows is marked for dropping. -/
theorem isDropCol_replicate {n : ℕ} (q : ℚ) (h : 2 ≤ n) :
    isDropCol (List.replicate n (Val.num q)) = true := by
  unfold isDropCol
  rw [colVar_replicate q h]
  norm_num [dropThreshold]

/-- `isDropCol` holds exactly when the variance is defined and at most the
threshold. -/
theorem isDropCol_iff (xs : List Val) :
    isDropCol xs = true ↔ ∃ q, colVar xs = some q ∧ q ≤ dropThreshold := by
  unfold isDropCol
  cases h : colVar xs with
  | none => simp
  | some v => simp

/-- A fitted-dimension match makes `transform` succeed. -/
theorem transform_ok_of_dim (e : HelmertEncoder) (X : Table)
    (hd : e._dim = some X.length) : ∃ Y, e.transform X = .ok Y := by
  unfold HelmertEncoder.transform convert_input
  rw [hd]
  simp only [ne_eq, not_true_eq_false, if_false, reduceIte]
  split
  · exact ⟨_, rfl⟩
  · exact ⟨_, rfl⟩

/-- Characterization of `transform` on a fitted encoder with a nonempty
categorical column list. -/
theorem transform_fitted (e : HelmertEncoder) (X : Table) (cs : List String)
    (hd : e._dim = some X.length) (hcs : e.cols = some cs) (hne : cs ≠ []) :
    e.transform X = .ok (
      if e.drop_invariant then
        (helmert_coding X cs (e.ordinal_encoder.getD [])).filter
          (fun col => !decide (col.name ∈ e.drop_cols))
      else helmert_coding X cs (e.ordinal_encoder.getD [])) := by
  unfold HelmertEncoder.transform convert_input
  rw [hd, hcs]
  simp only [ne_eq, not_true_eq_false, if_false, reduceIte, Option.getD_some]
  rw [if_neg (by simp [List.isEmpty_iff, hne])]

/-- Fields of the encoder produced by `fitPre`. -/
theorem fitPre_fields (e0 : HelmertEncoder) (X : Table) :
    (e0.fitPre X).return_df = e0.return_df ∧
    (e0.fitPre X).drop_invariant = e0.drop_invariant ∧
    (e0.fitPre X).drop_cols = e0.drop_cols ∧
    (e0.fitPre X)._dim = some X.length ∧
    (e0.fitPre X).ordinal_encoder =
      some (ordinalFit X (match e0.cols with | none => get_obj_cols X | some l => l)) ∧
    (e0.fitPre X).cols = some (match e0.cols with | none => get_obj_cols X | some l => l) := by
  unfold HelmertEncoder.fitPre convert_input
  exact ⟨rfl, rfl, rfl, rfl, rfl, rfl⟩

/-- With `drop_invariant` unset, `fit` is exactly `fitPre`. -/
theorem fit_no_drop (e0 : HelmertEncoder) (X : Table)
    (h : e0.drop_invariant = false) : e0.fit X = e0.fitPre X := by
  unfold HelmertEncoder.fit
  rw [if_neg]
  rw [(fitPre_fields e0 X).2.1, h]
  simp

/-- With `drop_invariant` set, `fit` records in `drop_cols` the names of the
unpruned fit-time transform columns marked by `isDropCol`. -/
theorem fit_drop (e0 : HelmertEncoder) (X : Table)
    (h : e0.drop_invariant = true) :
    ∃ X_temp,
      ({ e0.fitPre X with drop_cols := [] } : HelmertEncoder).transform X = .ok X_temp ∧
      e0.fit X = { e0.fitPre X with
        drop_cols := (X_temp.filter (fun col => isDropCol col.data)).map Col.name } := by
  have hd : ({ e0.fitPre X with drop_cols := [] } : HelmertEncoder)._dim = some X.length := by
    rw [show ({ e0.fitPre X with drop_cols := [] } : HelmertEncoder)._dim = (e0.fitPre X)._dim
      from rfl]
    exact (fitPre_fields e0 X).2.2.2.1
  obtain ⟨Y, hY⟩ := transform_ok_of_dim _ _ hd
  refine ⟨Y, hY, ?_⟩
  unfold HelmertEncoder.fit
  rw [if_pos (by rw [(fitPre_fields e0 X).2.1, h])]
  rw [hY]



/-- Congruence for `flatMap` over the members of the list. -/
theorem flatMap_congr_mem {α β : Type} {l : List α} {f g : α → List β}
    (h : ∀ a ∈ l, f a = g a) : l.flatMap f = l.flatMap g := by
  induction l with
  | nil => rfl
  | cons a t ih =>
      rw [List.flatMap_cons, List.flatMap_cons, h a (List.mem_cons_self a t),
        ih (fun x hx => h x (List.mem_cons_of_mem _ hx))]

/-- The block of one categorical column has exactly `k` columns, the trained
cardinality stored for it. -/
theorem codingBlock_length (X : Table) (oe : List (String × List (Val × Nat)))
    (c : String) : (codingBlock X oe c).length = (mappingFor oe c).length := by
  simp [codingBlock]

/-- The names of one block, in position order. -/
theorem codingBlock_names (X : Table) (oe : List (String × List (Val × Nat)))
    (c : String) :
    (codingBlock X oe c).map Col.name =
      (List.range (mappingFor oe c).length).map
        (fun d => renameCol c ++ "_" ++ toString d) := by
  simp [codingBlock, List.map_map]

/-- Total number of emitted block columns: the sum of trained cardinalities. -/
theorem flatMap_codingBlock_length (X : Table) (oe : List (String × List (Val × Nat)))
    (cs : List String) :
    (cs.flatMap (codingBlock X oe)).length =
      (cs.map (fun c => (mappingFor oe c).length)).sum := by
  rw [List.length_flatMap]
  apply congrArg List.sum
  apply List.map_congr_left
  intro a _
  simp [codingBlock]

/-- Column count of `helmert_coding`: the sum of trained cardinalities plus
the passthrough count. -/
theorem helmert_coding_length (X : Table) (cs : List String)
    (oe : List (String × List (Val × Nat))) :
    (helmert_coding X cs oe).length =
      (cs.map (fun c => (mappingFor oe c).length)).sum +
      (X.filter (fun col => !decide (col.name ∈ cs))).length := by
  rw [helmert_coding, List.length_append, flatMap_codingBlock_length]
  rw [pass_thru_cols, List.length_map]

/-- The names of the `helmert_coding` output: block names first in processing
order, then the renamed passthrough names in original order. -/
theorem helmert_coding_names (X : Table) (cs : List String)
    (oe : List (String × List (Val × Nat))) :
    (helmert_coding X cs oe).map Col.name =
      cs.flatMap (fun c => (List.range (mappingFor oe c).length).map
        (fun d => renameCol c ++ "_" ++ toString d)) ++
      (X.filter (fun col => !decide (col.name ∈ cs))).map
        (fun col => renameCol col.name) := by
  rw [helmert_coding, List.map_append]
  congr 1
  · rw [List.map_flatMap]
    exact flatMap_congr_mem (fun c _ => codingBlock_names X oe c)
  · rw [pass_thru_cols, List.map_map]
    rfl

/-- The renamed column name never equals the original name. -/
theorem renameCol_ne (s : String) : renameCol s ≠ s := by
  intro h
  have hlen := congrArg String.length h
  rw [renameCol, String.length_append,
    show ("col_" : String).length = 4 from rfl] at hlen
  omega

/-- An unfitted encoder rejects every transform input. -/
theorem transform_not_fitted (e : HelmertEncoder) (X : Table)
    (h : e._dim = none) : e.transform X = .error .notFitted := by
  unfold HelmertEncoder.transform
  rw [h]

/-- A fitted encoder rejects an input whose column count differs from the
recorded fit-time count, before any expansion work. -/
theorem transform_dim_mismatch (e : HelmertEncoder) (X : Table) (d : Nat)
    (hd : e._dim = some d) (hne : X.length ≠ d) :
    e.transform X = .error (.dimMismatch X.length d) := by
  unfold HelmertEncoder.transform convert_input
  rw [hd]
  simp only [ne_eq, hne, not_false_eq_true, if_true]

/-- `transform` succeeds exactly when the encoder is fitted and the input
column count matches the recorded one. -/
theorem transform_ok_iff (e : HelmertEncoder) (X : Table) :
    (∃ Y, e.transform X = .ok Y) ↔ ∃ d, e._dim = some d ∧ X.length = d := by
  constructor
  · rintro ⟨Y, hY⟩
    cases hdim : e._dim with
    | none => rw [transform_not_fitted e X hdim] at hY; cases hY
    | some d =>
        by_cases hlen : X.length = d
        · exact ⟨d, rfl, hlen⟩
        · rw [transform_dim_mismatch e X d hdim hlen] at hY; cases hY
  · rintro ⟨d, hd, hlen⟩
    exact transform_ok_of_dim e X (by rw [hd, hlen])

/-- The resolved column list survives the `drop_invariant` block of `fit`. -/
theorem fit_cols (e0 : HelmertEncoder) (X : Table) :
    (e0.fit X).cols = (e0.fitPre X).cols := by
  cases hb : e0.drop_invariant with
  | false => rw [fit_no_drop e0 X hb]
  | true =>
      obtain ⟨T, hT, hfit⟩ := fit_drop e0 X hb
      rw [hfit]


/-- C6: `transform` raises an error if and only if it is invoked before `fit`
has completed (no `_dim` recorded — the NotFittedError) or the input's column
count differs from the recorded fit-time count (the DimensionMismatchError);
otherwise it returns a result. -/
theorem transform_error_iff_unfitted_or_dim_mismatch
    (e : HelmertEncoder) (X : Table) :
    (e._dim = none → e.transform X = .error .notFitted) ∧
    (∀ d, e._dim = some d → X.length ≠ d →
      e.transform X = .error (.dimMismatch X.length d)) ∧
    ((∃ Y, e.transform X = .ok Y) ↔ ∃ d, e._dim = some d ∧ X.length = d) :=
  ⟨transform_not_fitted e X,
   fun d hd hne => transform_dim_mismatch e X d hd hne,
   transform_ok_iff e X⟩

/-- Witness for C6: the never-fitted encoder errors with NotFittedError; the
fitted `tinyEnc` (fit-time count 1) rejects a two-column input with the
dimension-mismatch error and accepts a one-column input. -/
theorem transform_error_iff_witness :
    (HelmertEncoder.init 0 none false true).transform [] = .error .notFitted ∧
    tinyEnc.transform twoColTable = .error (.dimMismatch 2 1) ∧
    (∃ Y, tinyEnc.transform tinyFit = .ok Y) :=
  ⟨(transform_error_iff_unfitted_or_dim_mismatch _ []).1 rfl,
   (transform_error_iff_unfitted_or_dim_mismatch tinyEnc twoColTable).2.1 1 rfl
     (by decide),
   (transform_error_iff_unfitted_or_dim_mismatch tinyEnc tinyFit).2.2.mpr
     ⟨1, rfl, rfl⟩⟩

/-- C7: on a fitted encoder, an input whose column count differs from the
fit-time count makes `transform` fail with the dimension-mismatch error
before any encoding or expansion work; only the error is produced (no partial
output), and `transform` takes the encoder state as a read-only value, so the
learned state is unchanged. -/
theorem dim_mismatch_rejects_before_work (e : HelmertEncoder) (X : Table)
    (d : Nat) (hd : e._dim = some d) (hne : X.length ≠ d) :
    e.transform X = .error (.dimMismatch X.length d) := by
  unfold HelmertEncoder.transform convert_input
  rw [hd]
  simp only [ne_eq, hne, not_false_eq_true, if_true]

/-- Witness for C7: the fitted `tinyEnc` (fit-time count 1) on a two-column
input. -/
theorem dim_mismatch_rejects_witness :
    tinyEnc.transform twoColTable = .error (.dimMismatch 2 1) :=
  dim_mismatch_rejects_before_work tinyEnc twoColTable 1 rfl (by decide)

/-- C9: every output column name of `helmert_coding` is the original name
prefixed with `col_` (the expanded columns with an additional positional
suffix), and the prefixed name never equals the original, so no passthrough
column appears under its original input name. -/
theorem output_names_prefixed (X : Table) (cs : List String)
    (oe : List (String × List (Val × Nat))) :
    ((helmert_coding X cs oe).map Col.name =
      cs.flatMap (fun c => (List.range (mappingFor oe c).length).map
        (fun d => renameCol c ++ "_" ++ toString d)) ++
      (X.filter (fun col => !decide (col.name ∈ cs))).map
        (fun col => renameCol col.name)) ∧
    (∀ s, renameCol s ≠ s) :=
  ⟨helmert_coding_names X cs oe, renameCol_ne⟩

/-- C10: with `cols=None`, the first `fit` stores the auto-detected string
columns in the instance's `cols` attribute, and a later `fit` on the same
instance reuses that stored list without re-running detection, whatever the
second dataset holds. -/
theorem cols_detected_once_and_reused (v : Nat) (di df : Bool) (X X2 : Table) :
    ((HelmertEncoder.init v none di df).fit X).cols = some (get_obj_cols X) ∧
    (((HelmertEncoder.init v none di df).fit X).fit X2).cols =
      ((HelmertEncoder.init v none di df).fit X).cols := by
  have h1 : ((HelmertEncoder.init v none di df).fit X).cols = some (get_obj_cols X) := by
    rw [fit_cols]
    exact (fitPre_fields _ _).2.2.2.2.2
  refine ⟨h1, ?_⟩
  rw [fit_cols, (fitPre_fields _ _).2.2.2.2.2, h1]


/-- On a fitted encoder without pruning, `transform` expands through
`helmert_coding` with the ordinal mappings learned at fit time. -/
theorem transform_after_fit_no_drop (v : Nat) (df : Bool) (cs : List String)
    (Xf X : Table) (hne : cs ≠ []) (hlen : X.length = Xf.length) :
    ((HelmertEncoder.init v (some cs) false df).fit Xf).transform X =
      .ok (helmert_coding X cs (ordinalFit Xf cs)) := by
  rw [fit_no_drop _ _ rfl]
  rw [transform_fitted _ X cs
    (by rw [(fitPre_fields _ _).2.2.2.1, hlen]) (fitPre_fields _ _).2.2.2.2.2 hne]
  rfl

/-- C1: a row holding a trained category with code `r` is emitted as the
Helmert contrast row of the spec formula — intercept 1, then `-1/(c+1)` for
`r ≤ c`, `c/(c+1)` for `r = c+1`, 0 below — and on the k=3 color example the
fitted encoder emits exactly the literal matrix rows `[1, -1/2, -1/3]`,
`[1, 1/2, -1/3]`, `[1, 0, 2/3]`. -/
theorem helmert_row_formula_and_k3_matrix :
    (∀ k r c, 1 ≤ r → r ≤ k → helmertVal k r c = Val.num (
      if c = 0 then 1
      else if r ≤ c then -1 / ((c : ℚ) + 1)
      else if r = c + 1 then (c : ℚ) / ((c : ℚ) + 1)
      else 0)) ∧
    colorEnc.transform colorRGB =
      .ok [⟨"col_color_0", [.num 1, .num 1, .num 1]⟩,
           ⟨"col_color_1", [.num (-1/2), .num (1/2), .num 0]⟩,
           ⟨"col_color_2", [.num (-1/3), .num (-1/3), .num (2/3)]⟩] := by
  constructor
  · intro k r c h1 h2
    unfold helmertVal helmertEntry
    rw [if_pos ⟨h1, h2⟩]
  · calc colorEnc.transform colorRGB
        = .ok [⟨"col_color_0", [helmertVal 3 1 0, helmertVal 3 2 0, helmertVal 3 3 0]⟩,
               ⟨"col_color_1", [helmertVal 3 1 1, helmertVal 3 2 1, helmertVal 3 3 1]⟩,
               ⟨"col_color_2", [helmertVal 3 1 2, helmertVal 3 2 2, helmertVal 3 3 2]⟩] := by
          rfl
      _ = _ := by norm_num [helmertVal, helmertEntry]

/-- Witness for C1 at `k = 3`, `r = 2`, contrast position `c = 1`. -/
theorem helmert_row_formula_witness :
    helmertVal 3 2 1 = Val.num (
      if (1 : ℕ) = 0 then 1
      else if 2 ≤ 1 then -1 / (((1 : ℕ) : ℚ) + 1)
      else if 2 = 1 + 1 then ((1 : ℕ) : ℚ) / (((1 : ℕ) : ℚ) + 1)
      else 0) :=
  helmert_row_formula_and_k3_matrix.1 3 2 1 (by norm_num) (by norm_num)

/-- C2: a categorical column with `k` distinct training categories always
yields `k` output columns (pruning disabled), whatever subset of the trained
categories the transform input holds: the output column count is the sum of
the trained cardinalities plus the passthrough count, independent of the
input values; on the §8.8 example, transforming `[red, blue]` after fitting
on `[red, green, red, blue]` yields the three expanded columns with rows
`[1, -1/2, -1/3]` and `[1, 0, 2/3]`. -/
theorem trained_cardinality_fixes_output_width :
    (∀ (v : Nat) (df : Bool) (cs : List String) (Xf X : Table),
      cs ≠ [] → X.length = Xf.length →
      ∃ Y, ((HelmertEncoder.init v (some cs) false df).fit Xf).transform X = .ok Y ∧
        Y.length = (cs.map (fun c => (learnMapping (colData Xf c)).length)).sum +
          (X.filter (fun col => !decide (col.name ∈ cs))).length) ∧
    colorEnc.transform colorRB =
      .ok [⟨"col_color_0", [.num 1, .num 1]⟩,
           ⟨"col_color_1", [.num (-1/2), .num 0]⟩,
           ⟨"col_color_2", [.num (-1/3), .num (2/3)]⟩] := by
  constructor
  · intro v df cs Xf X hne hlen
    refine ⟨_, transform_after_fit_no_drop v df cs Xf X hne hlen, ?_⟩
    rw [helmert_coding_length]
    congr 1
    apply congrArg List.sum
    apply List.map_congr_left
    intro c hc
    rw [mappingFor_ordinalFit hc]
  · calc colorEnc.transform colorRB
        = .ok [⟨"col_color_0", [helmertVal 3 1 0, helmertVal 3 3 0]⟩,
               ⟨"col_color_1", [helmertVal 3 1 1, helmertVal 3 3 1]⟩,
               ⟨"col_color_2", [helmertVal 3 1 2, helmertVal 3 3 2]⟩] := by rfl
      _ = _ := by norm_num [helmertVal, helmertEntry]

/-- Witness for C2: the §8.8 fit and the two-row transform input. -/
theorem trained_cardinality_witness :
    ∃ Y, ((HelmertEncoder.init 0 (some ["color"]) false true).fit colorFit).transform
        colorRB = .ok Y ∧
      Y.length = ((["color"] : List String).map
          (fun c => (learnMapping (colData colorFit c)).length)).sum +
        (colorRB.filter (fun col => !decide (col.name ∈ (["color"] : List String)))).length :=
  trained_cardinality_fixes_output_width.1 0 true ["color"] colorFit colorRB
    (by decide) (by decide)

/-- C3: a category value unseen at fit time does not raise: it is encoded as
the reserved code, whose whole expanded row is the undefined cell — never a
numeric cell, while every trained code yields numeric cells — and the
surrounding rows still transform to their normal contrast rows, as the
`purple` example shows end to end. -/
theorem unseen_category_gives_undefined_row :
    (∀ (values : List Val) (v : Val), v ∉ values → ∀ c,
      helmertVal (learnMapping values).length (encodeVal (learnMapping values) v) c
        = .undefined) ∧
    (∀ q, Val.undefined ≠ Val.num q) ∧
    (∀ k r c, 1 ≤ r → r ≤ k → helmertVal k r c ≠ .undefined) ∧
    colorEnc.transform colorUnseen =
      .ok [⟨"col_color_0", [.num 1, .undefined, .num 1]⟩,
           ⟨"col_color_1", [.num (-1/2), .undefined, .num 0]⟩,
           ⟨"col_color_2", [.num (-1/3), .undefined, .num (2/3)]⟩] := by
  refine ⟨?_, ?_, ?_, ?_⟩
  · intro values v h c
    rw [encodeVal_unseen h]
    unfold helmertVal
    rw [if_neg (by simp)]
  · intro q h
    exact Val.noConfusion h
  · intro k r c h1 h2
    unfold helmertVal
    rw [if_pos ⟨h1, h2⟩]
    simp
  · calc colorEnc.transform colorUnseen
        = .ok [⟨"col_color_0", [helmertVal 3 1 0, helmertVal 3 0 0, helmertVal 3 3 0]⟩,
               ⟨"col_color_1", [helmertVal 3 1 1, helmertVal 3 0 1, helmertVal 3 3 1]⟩,
               ⟨"col_color_2", [helmertVal 3 1 2, helmertVal 3 0 2, helmertVal 3 3 2]⟩] := by
          rfl
      _ = _ := by norm_num [helmertVal, helmertEntry]

/-- Witness for C3: the value `b` was not seen when fitting on `[a]`. -/
theorem unseen_category_witness :
    helmertVal (learnMapping [Val.str "a"]).length
      (encodeVal (learnMapping [Val.str "a"]) (Val.str "b")) 0 = Val.undefined :=
  unseen_category_gives_undefined_row.1 [Val.str "a"] (Val.str "b") (by decide) 0

/-- C8: on a fitted encoder the output is the expanded blocks first, in
column-processing order, followed by the passthrough columns in their
original relative order with values identical to the input (the embedding is
a pure function of the input table, which is never mutated). -/
theorem output_blocks_then_passthrough :
    ∀ (v : Nat) (df : Bool) (cs : List String) (Xf X : Table),
      cs ≠ [] → X.length = Xf.length →
      ∃ Y, ((HelmertEncoder.init v (some cs) false df).fit Xf).transform X = .ok Y ∧
        (Y.drop ((cs.map (fun c => (learnMapping (colData Xf c)).length)).sum)).map
            (fun col => (col.name, col.data))
          = (X.filter (fun col => !decide (col.name ∈ cs))).map
              (fun col => (renameCol col.name, col.data)) ∧
        (Y.take ((cs.map (fun c => (learnMapping (colData Xf c)).length)).sum)).map
            Col.name
          = cs.flatMap (fun c =>
              (List.range (learnMapping (colData Xf c)).length).map
                (fun d => renameCol c ++ "_" ++ toString d)) := by
  intro v df cs Xf X hne hlen
  have hsum : (cs.map (fun c => (learnMapping (colData Xf c)).length)).sum =
      (cs.flatMap (codingBlock X (ordinalFit Xf cs))).length := by
    rw [flatMap_codingBlock_length]
    symm
    apply congrArg List.sum
    apply List.map_congr_left
    intro c hc
    rw [mappingFor_ordinalFit hc]
  refine ⟨_, transform_after_fit_no_drop v df cs Xf X hne hlen, ?_, ?_⟩
  · rw [helmert_coding, hsum, List.drop_left, pass_thru_cols, List.map_map]
    rfl
  · rw [helmert_coding, hsum, List.take_left, List.map_flatMap]
    apply flatMap_congr_mem
    intro c hc
    rw [codingBlock_names, mappingFor_ordinalFit hc]

/-- Witness for C8: the §8.8 fit, transforming the two-row input. -/
theorem output_blocks_witness :
    ∃ Y, ((HelmertEncoder.init 0 (some ["color"]) false true).fit colorFit).transform
        colorRB = .ok Y ∧
      (Y.drop (((["color"] : List String).map
          (fun c => (learnMapping (colData colorFit c)).length)).sum)).map
          (fun col => (col.name, col.data))
        = (colorRB.filter
            (fun col => !decide (col.name ∈ (["color"] : List String)))).map
            (fun col => (renameCol col.name, col.data)) ∧
      (Y.take (((["color"] : List String).map
          (fun c => (learnMapping (colData colorFit c)).length)).sum)).map Col.name
        = (["color"] : List String).flatMap (fun c =>
            (List.range (learnMapping (colData colorFit c)).length).map
              (fun d => renameCol c ++ "_" ++ toString d)) :=
  output_blocks_then_passthrough 0 true ["color"] colorFit colorRB (by decide) (by decide)


/-- Evaluation: `numVals` on the empty column. -/
theorem numVals_nil : numVals [] = [] := rfl

/-- Evaluation: `numVals` keeps a numeric cell. -/
theorem numVals_num (q : ℚ) (xs : List Val) :
    numVals (Val.num q :: xs) = q :: numVals xs := rfl

/-- Evaluation: `numVals` skips a string cell. -/
theorem numVals_str (s : String) (xs : List Val) :
    numVals (Val.str s :: xs) = numVals xs := rfl

/-- Evaluation: `numVals` skips an undefined cell. -/
theorem numVals_undef (xs : List Val) : numVals (Val.undefined :: xs) = numVals xs := rfl

/-- Evaluation: a numeric cell is not a string. -/
theorem isStrVal_num (q : ℚ) : isStrVal (Val.num q) = false := rfl

/-- Evaluation: a string cell is a string. -/
theorem isStrVal_str (s : String) : isStrVal (Val.str s) = true := rfl

/-- Evaluation: the undefined cell is not a string. -/
theorem isStrVal_undef : isStrVal Val.undefined = false := rfl

/-- `isDropCol` through a defined variance. -/
theorem isDropCol_of_some {xs : List Val} {v : ℚ} (h : colVar xs = some v) :
    isDropCol xs = decide (v ≤ dropThreshold) := by unfold isDropCol; rw [h]

/-- `isDropCol` through an undefined variance. -/
theorem isDropCol_of_none {xs : List Val} (h : colVar xs = none) :
    isDropCol xs = false := by unfold isDropCol; rw [h]

/-- Counterexample to C4 as stated: fitting `varFit` (categorical `c`, numeric
passthrough `x` with values 0 and 0.012) marks `col_x` for removal, although
its variance over the fit-time transform — the same two values — is
`9/125000 = 7.2e-5`, strictly above the claimed bound `1e-5`. The source
threshold is the literal `10e-5 = 1e-4`, not `1e-5`. -/
theorem drop_threshold_counterexample :
    ({ (HelmertEncoder.init 0 none true true).fitPre varFit with
        drop_cols := [] } : HelmertEncoder).transform varFit =
      .ok [⟨"col_c_0", [.num 1, .num 1]⟩,
           ⟨"col_c_1", [.num (-1/2), .num (1/2)]⟩,
           ⟨"col_x", [.num 0, .num (3/250)]⟩] ∧
    varEnc.drop_cols = ["col_c_0", "col_x"] ∧
    colVar [Val.num 0, Val.num (3/250)] = some (9/125000) ∧
    ¬((9 : ℚ)/125000 ≤ 1/100000) := by
  have h0 : isDropCol [helmertVal 2 1 0, helmertVal 2 2 0] = true := by
    have hv : colVar [helmertVal 2 1 0, helmertVal 2 2 0] = some 0 := by
      norm_num [colVar, numVals_num, numVals_nil, isStrVal_num, sampleVar,
        helmertVal, helmertEntry]
    rw [isDropCol_of_some hv]
    norm_num [dropThreshold]
  have h1 : isDropCol [helmertVal 2 1 1, helmertVal 2 2 1] = false := by
    have hv : colVar [helmertVal 2 1 1, helmertVal 2 2 1] = some (1/2) := by
      norm_num [colVar, numVals_num, numVals_nil, isStrVal_num, sampleVar,
        helmertVal, helmertEntry]
    rw [isDropCol_of_some hv]
    norm_num [dropThreshold]
  have h2 : isDropCol [Val.num 0, Val.num (3/250)] = true := by
    have hv : colVar [Val.num 0, Val.num (3/250)] = some (9/125000) := by
      norm_num [colVar, numVals_num, numVals_nil, isStrVal_num, sampleVar]
    rw [isDropCol_of_some hv]
    norm_num [dropThreshold]
  refine ⟨?_, ?_, ?_, by norm_num⟩
  · calc ({ (HelmertEncoder.init 0 none true true).fitPre varFit with
          drop_cols := [] } : HelmertEncoder).transform varFit
        = .ok [⟨"col_c_0", [helmertVal 2 1 0, helmertVal 2 2 0]⟩,
               ⟨"col_c_1", [helmertVal 2 1 1, helmertVal 2 2 1]⟩,
               ⟨"col_x", [Val.num 0, Val.num (3/250)]⟩] := by rfl
      _ = _ := by norm_num [helmertVal, helmertEntry]
  · calc varEnc.drop_cols
        = (List.filter (fun col => isDropCol col.data)
            [⟨"col_c_0", [helmertVal 2 1 0, helmertVal 2 2 0]⟩,
             ⟨"col_c_1", [helmertVal 2 1 1, helmertVal 2 2 1]⟩,
             ⟨"col_x", [Val.num 0, Val.num (3/250)]⟩]).map Col.name := by rfl
      _ = ["col_c_0", "col_x"] := by simp [List.filter_cons, h0, h1, h2]
  · norm_num [colVar, numVals_num, numVals_nil, isStrVal_num, sampleVar]

/-- C4 as amended: with `drop_invariant` enabled, `fit` marks an output column
for removal if and only if its sample variance over the unpruned fit-time
transform is defined and at most `10e-5 = 1/10000` (the source literal),
inclusive — not `1e-5`. -/
theorem drop_invariant_marks_iff_var_le_1e4 (e0 : HelmertEncoder) (X : Table)
    (h : e0.drop_invariant = true) :
    ∃ X_temp,
      ({ e0.fitPre X with drop_cols := [] } : HelmertEncoder).transform X = .ok X_temp ∧
      ∀ x, x ∈ (e0.fit X).drop_cols ↔
        ∃ col, col ∈ X_temp ∧ col.name = x ∧
          ∃ q, colVar col.data = some q ∧ q ≤ 1 / 10000 := by
  obtain ⟨X_temp, hT, hfit⟩ := fit_drop e0 X h
  refine ⟨X_temp, hT, ?_⟩
  intro x
  rw [hfit]
  show x ∈ (X_temp.filter (fun col => isDropCol col.data)).map Col.name ↔ _
  constructor
  · intro hx
    obtain ⟨col, hcol, hname⟩ := List.mem_map.mp hx
    obtain ⟨hmem, hdrop⟩ := List.mem_filter.mp hcol
    obtain ⟨q, hq, hle⟩ := (isDropCol_iff col.data).mp hdrop
    exact ⟨col, hmem, hname, q, hq, hle⟩
  · rintro ⟨col, hmem, hname, q, hq, hle⟩
    exact List.mem_map.mpr ⟨col, List.mem_filter.mpr
      ⟨hmem, (isDropCol_iff col.data).mpr ⟨q, hq, hle⟩⟩, hname⟩

/-- Witness for the amended C4, on the `varFit` data. -/
theorem drop_invariant_marks_witness :
    ∃ X_temp,
      ({ (HelmertEncoder.init 0 none true true).fitPre varFit with
          drop_cols := [] } : HelmertEncoder).transform varFit = .ok X_temp ∧
      ∀ x, x ∈ ((HelmertEncoder.init 0 none true true).fit varFit).drop_cols ↔
        ∃ col, col ∈ X_temp ∧ col.name = x ∧
          ∃ q, colVar col.data = some q ∧ q ≤ 1 / 10000 :=
  drop_invariant_marks_iff_var_le_1e4 (HelmertEncoder.init 0 none true true) varFit rfl


/-- Counterexample to C5 as stated: on the one-row fit dataset `oneRowFit`
the sample variance of the intercept column is undefined (pandas NaN for a
single observation), so nothing is marked and the intercept column
`col_c_0` survives every subsequent transform. -/
theorem intercept_not_dropped_single_row :
    oneRowEnc.drop_cols = [] ∧
    oneRowEnc.transform oneRowFit = .ok [⟨"col_c_0", [Val.num 1]⟩] := by
  have hdrop : oneRowEnc.drop_cols = [] := by
    have hd : isDropCol [helmertVal 1 1 0] = false := by
      have hv : colVar [helmertVal 1 1 0] = none := by
        norm_num [colVar, numVals_num, numVals_nil, isStrVal_num, helmertVal,
          helmertEntry]
      rw [isDropCol_of_none hv]
    calc oneRowEnc.drop_cols
        = (List.filter (fun col => isDropCol col.data)
            [⟨"col_c_0", [helmertVal 1 1 0]⟩]).map Col.name := by rfl
      _ = [] := by simp [List.filter_cons, hd]
  refine ⟨hdrop, ?_⟩
  calc oneRowEnc.transform oneRowFit
      = .ok (List.filter (fun col => !decide (col.name ∈ oneRowEnc.drop_cols))
          [⟨"col_c_0", [helmertVal 1 1 0]⟩]) := by rfl
    _ = .ok [⟨"col_c_0", [Val.num 1]⟩] := by
        rw [hdrop]
        norm_num [helmertVal, helmertEntry]

/-- C5 as amended: with `drop_invariant` enabled, for every fit dataset whose
categorical column has at least two rows, the intercept column (position 0 of
that column's expanded block) is marked in `drop_cols` — its sample variance
is exactly 0 — and is removed from every subsequent successful transform
output. (With a single row the sample variance is undefined and nothing is
marked.) -/
theorem intercept_dropped_two_rows (v : Nat) (df : Bool) (cs : List String)
    (c : String) (X : Table) (hc : c ∈ cs) (hrows : 2 ≤ (colData X c).length) :
    (renameCol c ++ "_" ++ toString 0) ∈
      ((HelmertEncoder.init v (some cs) true df).fit X).drop_cols ∧
    ∀ (X2 Y : Table),
      ((HelmertEncoder.init v (some cs) true df).fit X).transform X2 = .ok Y →
      (renameCol c ++ "_" ++ toString 0) ∉ Y.map Col.name := by
  have hne : cs ≠ [] := List.ne_nil_of_mem hc
  obtain ⟨X_temp, hT, hfit⟩ := fit_drop (HelmertEncoder.init v (some cs) true df) X rfl
  -- the unpruned fit-time transform is the full expansion
  have hTval : ({ (HelmertEncoder.init v (some cs) true df).fitPre X with
      drop_cols := [] } : HelmertEncoder).transform X =
      .ok (helmert_coding X cs (ordinalFit X cs)) := by
    rw [transform_fitted _ X cs (by exact (fitPre_fields _ _).2.2.2.1)
      (by exact (fitPre_fields _ _).2.2.2.2.2) hne]
    have hcond : ({ (HelmertEncoder.init v (some cs) true df).fitPre X with
        drop_cols := [] } : HelmertEncoder).drop_invariant = true := rfl
    rw [if_pos hcond]
    rw [show ({ (HelmertEncoder.init v (some cs) true df).fitPre X with
      drop_cols := [] } : HelmertEncoder).drop_cols = ([] : List String) from rfl]
    rw [List.filter_eq_self.mpr (by intro a _; simp)]
    rfl
  have hX : X_temp = helmert_coding X cs (ordinalFit X cs) := by
    have := hT.symm.trans hTval
    simpa using this
  -- the intercept column of block `c`
  have hk : 1 ≤ (learnMapping (colData X c)).length := by
    obtain ⟨v0, hv0⟩ := List.exists_mem_of_length_pos
      (show 0 < (colData X c).length by omega)
    obtain ⟨hb1, hb2⟩ := encodeVal_seen_bounds hv0
    omega
  have hdata : ((colData X c).map (encodeVal (learnMapping (colData X c)))).map
      (fun r => helmertVal (learnMapping (colData X c)).length r 0)
      = List.replicate (colData X c).length (Val.num 1) := by
    have hpt : ∀ r ∈ (colData X c).map (encodeVal (learnMapping (colData X c))),
        (fun r => helmertVal (learnMapping (colData X c)).length r 0) r = Val.num 1 := by
      intro r hr
      obtain ⟨w, hw, hwr⟩ := List.mem_map.mp hr
      obtain ⟨hb1, hb2⟩ := encodeVal_seen_bounds hw
      subst hwr
      show helmertVal (learnMapping (colData X c)).length
        (encodeVal (learnMapping (colData X c)) w) 0 = Val.num 1
      unfold helmertVal
      rw [if_pos ⟨hb1, hb2⟩]
      unfold helmertEntry
      rw [if_pos rfl]
    rw [List.map_congr_left hpt, List.map_const', List.length_map]
  have hcol : (⟨renameCol c ++ "_" ++ toString 0,
      ((colData X c).map (encodeVal (mappingFor (ordinalFit X cs) c))).map
        (fun r => helmertVal (mappingFor (ordinalFit X cs) c).length r 0)⟩ : Col)
      ∈ helmert_coding X cs (ordinalFit X cs) := by
    rw [helmert_coding]
    apply List.mem_append_left
    rw [List.mem_flatMap]
    refine ⟨c, hc, ?_⟩
    rw [codingBlock]
    apply List.mem_map.mpr
    refine ⟨0, List.mem_range.mpr ?_, rfl⟩
    rw [mappingFor_ordinalFit hc]
    omega
  have hA : (renameCol c ++ "_" ++ toString 0) ∈
      ((HelmertEncoder.init v (some cs) true df).fit X).drop_cols := by
    rw [hfit]
    show _ ∈ (X_temp.filter (fun col => isDropCol col.data)).map Col.name
    rw [hX]
    apply List.mem_map.mpr
    refine ⟨_, List.mem_filter.mpr ⟨hcol, ?_⟩, rfl⟩
    show isDropCol (((colData X c).map (encodeVal (mappingFor (ordinalFit X cs) c))).map
      (fun r => helmertVal (mappingFor (ordinalFit X cs) c).length r 0)) = true
    rw [mappingFor_ordinalFit hc, hdata]
    exact isDropCol_replicate 1 hrows
  refine ⟨hA, ?_⟩
  intro X2 Y hok
  have hdim : ((HelmertEncoder.init v (some cs) true df).fit X)._dim = some X.length := by
    rw [hfit]
    exact (fitPre_fields (HelmertEncoder.init v (some cs) true df) X).2.2.2.1
  have hcols2 : ((HelmertEncoder.init v (some cs) true df).fit X).cols = some cs := by
    rw [hfit]
    exact (fitPre_fields (HelmertEncoder.init v (some cs) true df) X).2.2.2.2.2
  have hlen : X2.length = X.length := by
    obtain ⟨d, hd, hl⟩ := (transform_ok_iff _ _).mp ⟨Y, hok⟩
    rw [hdim] at hd
    injection hd with hd2
    rw [hl, hd2]
  have htr2 := transform_fitted ((HelmertEncoder.init v (some cs) true df).fit X) X2 cs
    (by rw [hdim, hlen]) hcols2 hne
  have hdi : ((HelmertEncoder.init v (some cs) true df).fit X).drop_invariant = true := by
    rw [hfit]
    rfl
  rw [htr2, if_pos hdi] at hok
  rw [Except.ok.injEq] at hok
  intro hmem
  obtain ⟨col, hcolmem, hname⟩ := List.mem_map.mp hmem
  rw [← hok] at hcolmem
  obtain ⟨_, hpred⟩ := List.mem_filter.mp hcolmem
  simp only [Bool.not_eq_true', decide_eq_false_iff_not] at hpred
  exact hpred (by rw [hname]; exact hA)

/-- Witness for the amended C5: fitting the four-row color data with
`drop_invariant` marks the intercept column `col_color_0`, and the pruned
transform output `colorDropOut` no longer carries it. -/
theorem intercept_dropped_witness :
    (renameCol "color" ++ "_" ++ toString 0) ∈ colorDropEnc.drop_cols ∧
    (renameCol "color" ++ "_" ++ toString 0) ∉ colorDropOut.map Col.name := by
  have h0 : isDropCol [helmertVal 3 1 0, helmertVal 3 2 0, helmertVal 3 1 0,
      helmertVal 3 3 0] = true := by
    have hv : colVar [helmertVal 3 1 0, helmertVal 3 2 0, helmertVal 3 1 0,
        helmertVal 3 3 0] = some 0 := by
      norm_num [colVar, numVals_num, numVals_nil, isStrVal_num, sampleVar,
        helmertVal, helmertEntry]
    rw [isDropCol_of_some hv]
    norm_num [dropThreshold]
  have h1 : isDropCol [helmertVal 3 1 1, helmertVal 3 2 1, helmertVal 3 1 1,
      helmertVal 3 3 1] = false := by
    have hv : colVar [helmertVal 3 1 1, helmertVal 3 2 1, helmertVal 3 1 1,
        helmertVal 3 3 1] = some (11/48) := by
      norm_num [colVar, numVals_num, numVals_nil, isStrVal_num, sampleVar,
        helmertVal, helmertEntry]
    rw [isDropCol_of_some hv]
    norm_num [dropThreshold]
  have h2 : isDropCol [helmertVal 3 1 2, helmertVal 3 2 2, helmertVal 3 1 2,
      helmertVal 3 3 2] = false := by
    have hv : colVar [helmertVal 3 1 2, helmertVal 3 2 2, helmertVal 3 1 2,
        helmertVal 3 3 2] = some (1/4) := by
      norm_num [colVar, numVals_num, numVals_nil, isStrVal_num, sampleVar,
        helmertVal, helmertEntry]
    rw [isDropCol_of_some hv]
    norm_num [dropThreshold]
  have hdrop : colorDropEnc.drop_cols = ["col_color_0"] := by
    calc colorDropEnc.drop_cols
        = (List.filter (fun col => isDropCol col.data)
            [⟨"col_color_0", [helmertVal 3 1 0, helmertVal 3 2 0, helmertVal 3 1 0,
                helmertVal 3 3 0]⟩,
             ⟨"col_color_1", [helmertVal 3 1 1, helmertVal 3 2 1, helmertVal 3 1 1,
                helmertVal 3 3 1]⟩,
             ⟨"col_color_2", [helmertVal 3 1 2, helmertVal 3 2 2, helmertVal 3 1 2,
                helmertVal 3 3 2]⟩]).map Col.name := by rfl
      _ = ["col_color_0"] := by simp [List.filter_cons, h0, h1, h2]
  have hEq : colorDropEnc.transform colorFit = .ok colorDropOut := by
    calc colorDropEnc.transform colorFit
        = .ok (List.filter
            (fun col => !decide (col.name ∈ colorDropEnc.drop_cols))
            [⟨"col_color_0", [helmertVal 3 1 0, helmertVal 3 2 0, helmertVal 3 1 0,
                helmertVal 3 3 0]⟩,
             ⟨"col_color_1", [helmertVal 3 1 1, helmertVal 3 2 1, helmertVal 3 1 1,
                helmertVal 3 3 1]⟩,
             ⟨"col_color_2", [helmertVal 3 1 2, helmertVal 3 2 2, helmertVal 3 1 2,
                helmertVal 3 3 2]⟩]) := by rfl
      _ = .ok colorDropOut := by
          rw [hdrop]
          norm_num [colorDropOut, helmertVal, helmertEntry]
          exact ⟨by decide, by decide⟩
  exact ⟨(intercept_dropped_two_rows 0 true ["color"] "color" colorFit
      (by decide) (by decide)).1,
    (intercept_dropped_two_rows 0 true ["color"] "color" colorFit
      (by decide) (by decide)).2 colorFit colorDropOut hEq⟩

end HelmertSpec
